import Mathlib

/-!
Shallow embedding of `angr/analyses/deobfuscator/string_obf_opt_passes.py`
(class `StringObfType3Rewriter`), together with theorems about its behaviour.

The pass rewrites basic blocks that end in a call whose source address is a
key of the type-3 deobfuscation map: the call is replaced by a canonical
`init_str` call, a window of byte-sized stack stores is pruned, and on AMD64
assignments to the four Win64 integer argument registers are dropped.
-/

namespace StringObf

/-- Architecture descriptor: the pass reads `project.arch.name` and `project.arch.bits`. -/
structure Arch where
  name : String
  bits : Nat
  deriving DecidableEq, Repr

/-- AIL expressions, restricted to the variants the pass inspects
(`Const`, `StackBaseOffset`, `Register`); everything else is opaque. -/
inductive Expr where
  | const (value : Nat) (bits : Nat) (customString : Bool)
  | stackBaseOffset (offset : Int)
  | register (regOffset : Nat)
  | other (tag : Nat)
  deriving DecidableEq, Repr

/-- Call targets: either a name string (like "init_str") or an expression. -/
inductive CallTarget where
  | name (s : String)
  | expr (e : Expr)
  deriving DecidableEq, Repr

/-- Statement tags (ailment `TaggedObject.tags`).  `ins_addr` is the source
instruction address, stored as an ordinary tag and hence copied verbatim by
`Call(..., **old_call.tags)`; all remaining tags are collapsed into `extra`. -/
structure Tags where
  ins_addr : Nat
  extra : Nat
  deriving DecidableEq, Repr

/-- AIL statements, restricted to the variants the pass inspects
(`Call`, `Store`, `Assignment`); everything else is opaque. -/
inductive Stmt where
  | call (idx : Option Nat) (target : CallTarget) (args : Option (List Expr))
      (retExpr : Option Expr) (tags : Tags)
  | store (addr : Expr) (data : Expr) (tags : Tags)
  | assign (dst : Expr) (src : Expr) (tags : Tags)
  | other (tag : Nat)
  deriving DecidableEq, Repr

/-- An AIL block: an address plus an ordered statement list.
`block.copy(statements=...)` keeps the address. -/
structure Block where
  addr : Nat
  statements : List Stmt
  deriving DecidableEq, Repr

/-- Deobfuscation map `kb.obfuscations.type3_deobfuscated_strings`:
call-site address to decoded byte content (bytes modelled as `List Nat`). -/
abbrev DeobfMap := List (Nat × List Nat)

/-- Modelled from the spec: the knowledge base's custom string allocator
(`kb.custom_strings`, whose implementation is not part of the provided
source): a dedup store mapping byte content to a stable integer id;
`allocate` is idempotent — identical byte content always yields the same id. -/
abbrev Allocator := List (List Nat)

/-- Modelled from the spec: `Allocator.allocate(content)` returns the id of
`content` if already stored, otherwise stores it and returns the fresh id. -/
def Allocator.allocate (a : Allocator) (content : List Nat) : Nat × Allocator :=
  match a.findIdx? (fun c => c == content) with
  | some i => (i, a)
  | none => (a.length, a ++ [content])

/-- VEX register-file offsets of rcx, rdx, r8, r9 in archinfo's `ArchAMD64`
(the module-level `WIN64_REG_ARGS` set). -/
def WIN64_REG_ARGS : List Nat := [24, 32, 80, 88]

/-- Embeds `StringObfType3Rewriter._stmt_sets_win64_reg_arg`: an `Assignment`
whose destination is a `Register` with offset in `WIN64_REG_ARGS`. -/
def stmt_sets_win64_reg_arg : Stmt → Bool
  | .assign (.register r) _ _ => WIN64_REG_ARGS.contains r
  | _ => false

/-- The register-pruning step of `_process_block`: on AMD64, drop every
statement satisfying `_stmt_sets_win64_reg_arg`; otherwise keep all. -/
def pruneRegWrites (arch : Arch) (statements : List Stmt) : List Stmt :=
  if arch.name = "AMD64" then statements.filter (fun s => !stmt_sets_win64_reg_arg s)
  else statements

/-- The store-collection test of `_process_block`: a `Store` to a
`StackBaseOffset` address of a `Const` value at most 0xFF; returns the stack
offset when the statement qualifies. -/
def isQualStore : Stmt → Option Int
  | .store (.stackBaseOffset off) (.const v _ _) _ => if v ≤ 0xFF then some off else none
  | _ => none

/-- Python dict assignment `d[k] = v` on an association list: overwrite the
entry for `k` if present, else append. -/
def dictInsert (d : List (Int × Nat)) (k : Int) (v : Nat) : List (Int × Nat) :=
  if d.any (fun p => p.1 == k) then d.map (fun p => if p.1 = k then (k, v) else p)
  else d ++ [(k, v)]

/-- Python dict lookup `d[k]` (0 when absent; only used on present keys). -/
def dictGet (d : List (Int × Nat)) (k : Int) : Nat :=
  match d.find? (fun p => p.1 == k) with
  | some p => p.2
  | none => 0

/-- The `for idx, stmt in enumerate(statements)` loop of `_process_block`
that fills `stack_offset_to_stmtid`; `n` is the running index. -/
def buildDictAux (d : List (Int × Nat)) (n : Nat) : List Stmt → List (Int × Nat)
  | [] => d
  | s :: rest =>
    match isQualStore s with
    | some off => buildDictAux (dictInsert d off n) (n + 1) rest
    | none => buildDictAux d (n + 1) rest

/-- The full `stack_offset_to_stmtid` dictionary for a statement list. -/
def buildDict (statements : List Stmt) : List (Int × Nat) :=
  buildDictAux [] 0 statements

/-- Python `sorted(stack_offset_to_stmtid)`: the keys in ascending order. -/
def sortedOffsets (d : List (Int × Nat)) : List Int :=
  List.insertionSort (· ≤ ·) (d.map Prod.fst)

/-- The window test of `_process_block`:
`sorted_offsets[start] + spacing * distance == sorted_offsets[start + distance]`
with `spacing = 8`. -/
def windowEq (offsets : List Int) (distance s : Nat) : Bool :=
  offsets.getD s 0 + 8 * (distance : Int) == offsets.getD (s + distance) 0

/-- The `for start_idx in range(len(sorted_offsets) - distance)` scan with
`break` on the first window match. -/
def findStart (offsets : List Int) (distance : Nat) : Option Nat :=
  (List.range (offsets.length - distance)).find? (fun s => windowEq offsets distance s)

/-- The statement positions removed for a matched window:
`stack_offset_to_stmtid[sorted_offsets[i]]` for `i` in
`range(start_idx, start_idx + distance + 1)`. -/
def windowIndices (d : List (Int × Nat)) (offsets : List Int) (distance start : Nat) :
    List Nat :=
  (List.range (distance + 1)).map (fun i => dictGet d (offsets.getD (start + i) 0))

/-- Setting `statements[i] = None` for each `i` in `idxs` and then filtering
out the `None`s: drop the elements whose position is listed in `idxs`;
`n` is the position of the head of the remaining list. -/
def removeIndicesAux (idxs : List Nat) (n : Nat) : List Stmt → List Stmt
  | [] => []
  | s :: rest =>
    if idxs.contains n then removeIndicesAux idxs (n + 1) rest
    else s :: removeIndicesAux idxs (n + 1) rest

/-- The stack-write pruning phase of `_process_block` (the body guarded by
`len(deobf_content) > 2`): build `stack_offset_to_stmtid`, sort its keys,
compute `distance`, scan for the first matching window, and remove the
recorded statements; when the dictionary is empty or no window matches,
the statement list is returned unchanged. -/
def pruneStackWrites (statements : List Stmt) (deobfLen : Nat) : List Stmt :=
  if (sortedOffsets (buildDict statements)).isEmpty then statements
  else
    match findStart (sortedOffsets (buildDict statements))
        (min (deobfLen - 2) ((sortedOffsets (buildDict statements)).length - 1)) with
    | some start =>
      removeIndicesAux
        (windowIndices (buildDict statements) (sortedOffsets (buildDict statements))
          (min (deobfLen - 2) ((sortedOffsets (buildDict statements)).length - 1)) start)
        0 statements
    | none => statements

/-- Embeds `StringObfType3Rewriter._process_block`.  Returns `none` exactly
when Python would raise: the final call's argument list is missing or empty,
so `old_call.args[0]` fails (the guard in `_analyze` guarantees the final
statement is a `Call`).  Otherwise: substitute the canonical `init_str` call
(copying index, return expression and all tags from the original call),
prune stack writes when the decoded content is longer than 2 bytes, prune
Win64 argument-register writes on AMD64, and rebuild the block. -/
def processBlock (arch : Arch) (alloc : Allocator) (block : Block)
    (deobfContent : List Nat) : Option (Block × Allocator) :=
  match block.statements.getLast? with
  | some (.call idx _ (some (a0 :: _)) retExpr tags) =>
    let strId := (Allocator.allocate alloc deobfContent).1
    let alloc2 := (Allocator.allocate alloc deobfContent).2
    let newCall : Stmt := .call idx (.name "init_str")
      (some [a0, .const strId arch.bits true, .const deobfContent.length arch.bits false])
      retExpr tags
    let statements1 := block.statements.dropLast ++ [newCall]
    let statements2 :=
      if deobfContent.length > 2 then pruneStackWrites statements1 deobfContent.length
      else statements1
    some ({ block with statements := pruneRegWrites arch statements2 }, alloc2)
  | _ => none

/-- The eligibility condition of `_analyze`: the block is non-empty, its last
statement is a `Call`, and that call's `ins_addr` is a key of the map. -/
def qualifies (m : DeobfMap) (block : Block) : Bool :=
  match block.statements.getLast? with
  | some (.call _ _ _ _ tags) => (m.lookup tags.ins_addr).isSome
  | _ => false

/-- One iteration of the `_analyze` loop on a single block: process it when
it qualifies, otherwise leave it (and the allocator) untouched. -/
def analyzeBlock (m : DeobfMap) (arch : Arch) (alloc : Allocator) (block : Block) :
    Option (Block × Allocator) :=
  match block.statements.getLast? with
  | some (.call _ _ _ _ tags) =>
    match m.lookup tags.ins_addr with
    | some content => processBlock arch alloc block content
    | none => some (block, alloc)
  | _ => some (block, alloc)

/-- Embeds the `_analyze` loop over the snapshot of the graph's blocks,
threading the allocator state; `none` propagates a Python exception. -/
def analyzeBlocks (m : DeobfMap) (arch : Arch) :
    Allocator → List Block → Option (List Block × Allocator)
  | alloc, [] => some ([], alloc)
  | alloc, b :: rest =>
    match analyzeBlock m arch alloc b with
    | none => none
    | some (b2, alloc2) =>
      match analyzeBlocks m arch alloc2 rest with
      | none => none
      | some (rest2, alloc3) => some (b2 :: rest2, alloc3)

/-- The whole pass: `_check` (map non-empty) gating `_analyze`. -/
def runPass (m : DeobfMap) (arch : Arch) (alloc : Allocator) (blocks : List Block) :
    Option (List Block × Allocator) :=
  if m.isEmpty then some (blocks, alloc) else analyzeBlocks m arch alloc blocks

/-- Abbreviation for the canonical call statement that `_process_block`
synthesizes: name `init_str`, arguments `[old_call.args[0], string id,
length]`, index, return expression and tags copied from the original call. -/
def newCallOf (arch : Arch) (alloc : Allocator) (d : List Nat) (idx : Option Nat)
    (a0 : Expr) (ret : Option Expr) (tags : Tags) : Stmt :=
  .call idx (.name "init_str")
    (some [a0, .const (Allocator.allocate alloc d).1 arch.bits true,
           .const d.length arch.bits false]) ret tags

/-- Predicate used to state store-preservation properties. -/
def isStore : Stmt → Bool
  | .store _ _ _ => true
  | _ => false

/-- Shorthand for a single-byte stack store, used in concrete examples. -/
def stByte (o : Int) (v : Nat) : Stmt :=
  .store (.stackBaseOffset o) (.const v 8 false) ⟨0, 0⟩

/-- Concrete deobfuscation map used in the examples: address 100 decodes to
the three bytes of "abc". -/
def exMap : DeobfMap := [(100, [97, 98, 99])]

/-- Concrete 32-bit x86 architecture descriptor. -/
def exArch : Arch := ⟨"X86", 32⟩

/-- Concrete 64-bit AMD64 architecture descriptor. -/
def arch64 : Arch := ⟨"AMD64", 64⟩

/-- Concrete type-3 deobfuscation call at address 100. -/
def exCall : Stmt :=
  .call none (.expr (.const 500 32 false)) (some [.other 7]) none ⟨100, 0⟩

/-- Concrete block with five single-byte stack stores and a final
deobfuscation call. -/
def exBlock : Block :=
  ⟨1000, [stByte (-32) 1, stByte (-24) 2, stByte (-16) 3, stByte (-8) 4,
          stByte 0 5, exCall]⟩

/-- The canonical call that rewriting `exBlock` produces. -/
def exNewCall : Stmt :=
  .call none (.name "init_str")
    (some [.other 7, .const 0 32 true, .const 3 32 false]) none ⟨100, 0⟩

/-- Allocator state after the first run on `exBlock`. -/
def exAlloc1 : Allocator := [[97, 98, 99]]

/-- Result of running the pass once on `exBlock`: the stores at -0x20 and
-0x18 are pruned and the call is rewritten. -/
def exBlock1 : Block :=
  ⟨1000, [stByte (-16) 3, stByte (-8) 4, stByte 0 5, exNewCall]⟩

/-- Result of running the pass a second time: two more stores are pruned. -/
def exBlock2 : Block := ⟨1000, [stByte 0 5, exNewCall]⟩

/-- Statement list whose qualifying stores sit at offsets 0, 3 and 16: the
window endpoints are spaced 8 * 2 apart but the interior offset 3 is not. -/
def w5Stmts : List Stmt := [stByte 0 1, stByte 3 2, stByte 16 3, .other 4]

/-- Statement list for the register-pruning witness. -/
def w7 : List Stmt :=
  [.assign (.register 24) (.other 1) ⟨0, 0⟩,
   .assign (.register 40) (.other 2) ⟨0, 0⟩,
   .other 5,
   .assign (.register 88) (.other 3) ⟨0, 0⟩]

/-- Block ending in a call with an empty argument list. -/
def w8Block : Block :=
  ⟨3, [.call none (.expr (.const 5 32 false)) (some []) none ⟨7, 0⟩]⟩

/-- Block with a single qualifying store for the short-string witness. -/
def w4Block : Block := ⟨5, [stByte (-8) 7, exCall]⟩

/-! ### Helper lemmas about the list machinery -/

theorem contains_iff {l : List Nat} {a : Nat} : l.contains a = true ↔ a ∈ l :=
  List.elem_iff

theorem getD_mem {l : List Int} {i : Nat} (h : i < l.length) : l.getD i 0 ∈ l := by
  rw [List.getD_eq_getElem l 0 h]
  exact List.getElem_mem h

theorem removeIndicesAux_cons (idxs : List Nat) (n : Nat) (s : Stmt) (l : List Stmt) :
    removeIndicesAux idxs n (s :: l) =
      if idxs.contains n then removeIndicesAux idxs (n + 1) l
      else s :: removeIndicesAux idxs (n + 1) l := rfl

theorem removeIndicesAux_append (idxs : List Nat) (l1 l2 : List Stmt) :
    ∀ n, removeIndicesAux idxs n (l1 ++ l2) =
      removeIndicesAux idxs n l1 ++ removeIndicesAux idxs (n + l1.length) l2 := by
  induction l1 with
  | nil => intro n; simp [removeIndicesAux]
  | cons s rest ih =>
    intro n
    rw [List.cons_append, removeIndicesAux_cons, removeIndicesAux_cons, List.length_cons]
    by_cases h : idxs.contains n
    · rw [if_pos h, if_pos h, ih (n + 1),
        show n + (rest.length + 1) = n + 1 + rest.length from by omega]
    · rw [if_neg h, if_neg h, List.cons_append, ih (n + 1),
        show n + (rest.length + 1) = n + 1 + rest.length from by omega]

theorem removeIndicesAux_sublist (idxs : List Nat) :
    ∀ (n : Nat) (l : List Stmt), (removeIndicesAux idxs n l).Sublist l := by
  intro n l
  induction l generalizing n with
  | nil => simp [removeIndicesAux]
  | cons s rest ih =>
    unfold removeIndicesAux
    by_cases h : idxs.contains n
    · rw [if_pos h]; exact (ih (n + 1)).cons _
    · rw [if_neg h]; exact (ih (n + 1)).cons₂ _

theorem removeIndicesAux_out (idxs : List Nat) :
    ∀ (n : Nat) (l : List Stmt), (∀ i ∈ idxs, i < n ∨ n + l.length ≤ i) →
      removeIndicesAux idxs n l = l := by
  intro n l
  induction l generalizing n with
  | nil => intro _; rfl
  | cons s rest ih =>
    intro h
    have hn : ¬ idxs.contains n = true := by
      intro hc
      rcases h n (contains_iff.mp hc) with h1 | h2
      · omega
      · simp only [List.length_cons] at h2; omega
    unfold removeIndicesAux
    rw [if_neg hn, ih (n + 1) ?_]
    intro i hi
    rcases h i hi with h1 | h2
    · left; omega
    · right; simp only [List.length_cons] at h2; omega

theorem removeIndicesAux_length (idxs : List Nat) :
    ∀ (l : List Stmt) (n : Nat), (removeIndicesAux idxs n l).length =
      ((List.range' n l.length).filter (fun i => !idxs.contains i)).length := by
  intro l
  induction l with
  | nil => intro n; rfl
  | cons s rest ih =>
    intro n
    rw [List.length_cons, List.range'_succ, removeIndicesAux_cons, List.filter_cons]
    by_cases h : idxs.contains n
    · have hb : (!idxs.contains n) = false := by rw [h]; rfl
      rw [if_pos h, hb]
      simpa using ih (n + 1)
    · have hb : (!idxs.contains n) = true := by
        cases hc : idxs.contains n
        · rfl
        · exact absurd hc h
      rw [if_neg h, hb]
      simpa using ih (n + 1)

theorem filter_split_length {α : Type} (p : α → Bool) (l : List α) :
    (l.filter p).length + (l.filter (fun a => !p a)).length = l.length := by
  induction l with
  | nil => rfl
  | cons a t ih =>
    by_cases h : p a <;> simp [List.filter_cons, h, ← ih] <;> omega

theorem filter_contains_length {idxs A : List Nat}
    (hA : A.Nodup) (hIdx : idxs.Nodup) (hsub : ∀ i ∈ idxs, i ∈ A) :
    (A.filter (fun i => idxs.contains i)).length = idxs.length := by
  have hperm : (A.filter (fun i => idxs.contains i)).Perm idxs := by
    rw [List.perm_ext_iff_of_nodup (hA.filter _) hIdx]
    intro a
    rw [List.mem_filter]
    constructor
    · rintro ⟨_, h2⟩; exact contains_iff.mp h2
    · intro ha; exact ⟨hsub a ha, contains_iff.mpr ha⟩
  exact hperm.length_eq

theorem removeIndices_length {idxs : List Nat} {l : List Stmt}
    (hIdx : idxs.Nodup) (hbound : ∀ i ∈ idxs, i < l.length) :
    (removeIndicesAux idxs 0 l).length + idxs.length = l.length := by
  rw [removeIndicesAux_length]
  have hsub : ∀ i ∈ idxs, i ∈ List.range' 0 l.length := by
    intro i hi
    rw [← List.range_eq_range']
    exact List.mem_range.mpr (hbound i hi)
  have hA : (List.range' 0 l.length).Nodup := List.nodup_range' 0 l.length
  have hpart := filter_split_length (fun i => idxs.contains i) (List.range' 0 l.length)
  have hc := filter_contains_length hA hIdx hsub
  have hlen : (List.range' 0 l.length).length = l.length := List.length_range' 0 1 l.length
  omega

/-! ### Helper lemmas about the offset dictionary -/

theorem mem_dictInsert {d : List (Int × Nat)} {k : Int} {v : Nat} {p : Int × Nat}
    (h : p ∈ dictInsert d k v) : (p ∈ d ∧ p.1 ≠ k) ∨ p = (k, v) := by
  unfold dictInsert at h
  by_cases hany : d.any (fun q => q.1 == k)
  · rw [if_pos hany] at h
    rcases List.mem_map.mp h with ⟨q, hq, hpq⟩
    by_cases hk : q.1 = k
    · right; rw [if_pos hk] at hpq; exact hpq.symm
    · left; rw [if_neg hk] at hpq; subst hpq; exact ⟨hq, hk⟩
  · rw [if_neg hany] at h
    rcases List.mem_append.mp h with h1 | h2
    · left
      refine ⟨h1, fun hk => hany ?_⟩
      exact List.any_eq_true.mpr ⟨p, h1, by simp [hk]⟩
    · right; simpa using h2

theorem dictInsert_keys (d : List (Int × Nat)) (k : Int) (v : Nat) :
    (dictInsert d k v).map Prod.fst = d.map Prod.fst ∨
    ((dictInsert d k v).map Prod.fst = d.map Prod.fst ++ [k] ∧
      k ∉ d.map Prod.fst) := by
  unfold dictInsert
  by_cases hany : d.any (fun q => q.1 == k)
  · left
    rw [if_pos hany, List.map_map]
    apply List.map_congr_left
    intro q _
    by_cases hk : q.1 = k <;> simp [hk]
  · right
    rw [if_neg hany]
    refine ⟨by simp, fun hk => hany ?_⟩
    rcases List.mem_map.mp hk with ⟨q, hq, hqk⟩
    exact List.any_eq_true.mpr ⟨q, hq, by simp [hqk]⟩

theorem dictInsert_keys_nodup {d : List (Int × Nat)} {k : Int} {v : Nat}
    (h : (d.map Prod.fst).Nodup) : ((dictInsert d k v).map Prod.fst).Nodup := by
  rcases dictInsert_keys d k v with he | ⟨he, hnk⟩
  · rw [he]; exact h
  · rw [he]
    simp only [List.nodup_append, List.nodup_cons, List.not_mem_nil, not_false_iff,
      List.nodup_nil, and_true, true_and]
    exact ⟨h, by simpa [List.disjoint_singleton] using hnk⟩

theorem dictGet_mem {d : List (Int × Nat)} {k : Int} (h : k ∈ d.map Prod.fst) :
    (k, dictGet d k) ∈ d := by
  unfold dictGet
  cases hf : d.find? (fun p => p.1 == k) with
  | none =>
    exfalso
    rcases List.mem_map.mp h with ⟨q, hq, hk⟩
    have hnone := List.find?_eq_none.mp hf q hq
    simp [hk] at hnone
  | some q =>
    have hmem := List.mem_of_find?_eq_some hf
    have hq1 : q.1 = k := by simpa using List.find?_some hf
    rw [← hq1]
    exact hmem

theorem buildDictAux_cons (d : List (Int × Nat)) (n : Nat) (s : Stmt) (l : List Stmt) :
    buildDictAux d n (s :: l) =
      match isQualStore s with
      | some off => buildDictAux (dictInsert d off n) (n + 1) l
      | none => buildDictAux d (n + 1) l := rfl

theorem buildDictAux_cons_some {s : Stmt} {off : Int} (d : List (Int × Nat)) (n : Nat)
    (l : List Stmt) (h : isQualStore s = some off) :
    buildDictAux d n (s :: l) = buildDictAux (dictInsert d off n) (n + 1) l := by
  rw [buildDictAux_cons, h]

theorem buildDictAux_cons_none {s : Stmt} (d : List (Int × Nat)) (n : Nat)
    (l : List Stmt) (h : isQualStore s = none) :
    buildDictAux d n (s :: l) = buildDictAux d (n + 1) l := by
  rw [buildDictAux_cons, h]

theorem buildDictAux_append (l1 l2 : List Stmt) :
    ∀ (d : List (Int × Nat)) (n : Nat),
      buildDictAux d n (l1 ++ l2) =
        buildDictAux (buildDictAux d n l1) (n + l1.length) l2 := by
  induction l1 with
  | nil => intro d n; simp [buildDictAux]
  | cons s rest ih =>
    intro d n
    rw [List.cons_append, List.length_cons]
    cases hq : isQualStore s with
    | none =>
      rw [buildDictAux_cons_none _ _ _ hq, buildDictAux_cons_none _ _ _ hq, ih d (n + 1),
        show n + (rest.length + 1) = n + 1 + rest.length from by omega]
    | some off =>
      rw [buildDictAux_cons_some _ _ _ hq, buildDictAux_cons_some _ _ _ hq, ih _ (n + 1),
        show n + (rest.length + 1) = n + 1 + rest.length from by omega]

theorem buildDictAux_none (l : List Stmt) :
    ∀ (d : List (Int × Nat)) (n : Nat), (∀ t ∈ l, isQualStore t = none) →
      buildDictAux d n l = d := by
  induction l with
  | nil => intro d n _; rfl
  | cons s rest ih =>
    intro d n h
    rw [buildDictAux_cons_none _ _ _ (h s (List.mem_cons_self s rest))]
    exact ih d (n + 1) (fun t ht => h t (List.mem_cons_of_mem s ht))

theorem buildDictAux_mem (l : List Stmt) :
    ∀ (d : List (Int × Nat)) (n : Nat) (p : Int × Nat),
      p ∈ buildDictAux d n l →
      p ∈ d ∨ (n ≤ p.2 ∧ p.2 - n < l.length ∧
        ∃ s, l[p.2 - n]? = some s ∧ isQualStore s = some p.1) := by
  induction l with
  | nil => intro d n p h; left; exact h
  | cons s rest ih =>
    intro d n p h
    cases hq : isQualStore s with
    | none =>
      rw [buildDictAux_cons_none _ _ _ hq] at h
      rcases ih d (n + 1) p h with h1 | ⟨h2, h3, t, h4, h5⟩
      · left; exact h1
      · right
        refine ⟨by omega, by simp only [List.length_cons]; omega, t, ?_, h5⟩
        rw [show p.2 - n = (p.2 - (n + 1)) + 1 from by omega, List.getElem?_cons_succ]
        exact h4
    | some off =>
      rw [buildDictAux_cons_some _ _ _ hq] at h
      rcases ih _ (n + 1) p h with h1 | ⟨h2, h3, t, h4, h5⟩
      · rcases mem_dictInsert h1 with ⟨hd, _⟩ | hp
        · left; exact hd
        · right
          subst hp
          exact ⟨Nat.le_refl n, by simp, s, by simp, hq⟩
      · right
        refine ⟨by omega, by simp only [List.length_cons]; omega, t, ?_, h5⟩
        rw [show p.2 - n = (p.2 - (n + 1)) + 1 from by omega, List.getElem?_cons_succ]
        exact h4

theorem buildDict_mem {statements : List Stmt} {p : Int × Nat}
    (h : p ∈ buildDict statements) :
    p.2 < statements.length ∧
      ∃ s, statements[p.2]? = some s ∧ isQualStore s = some p.1 := by
  rcases buildDictAux_mem statements [] 0 p h with h1 | ⟨_, h3, s, h4, h5⟩
  · cases h1
  · rw [Nat.sub_zero] at h3 h4
    exact ⟨h3, s, h4, h5⟩

theorem buildDictAux_keys_nodup (l : List Stmt) :
    ∀ (d : List (Int × Nat)) (n : Nat),
      (d.map Prod.fst).Nodup → ((buildDictAux d n l).map Prod.fst).Nodup := by
  induction l with
  | nil => intro d n h; exact h
  | cons s rest ih =>
    intro d n h
    cases hq : isQualStore s with
    | none => rw [buildDictAux_cons_none _ _ _ hq]; exact ih d (n + 1) h
    | some off =>
      rw [buildDictAux_cons_some _ _ _ hq]
      exact ih _ (n + 1) (dictInsert_keys_nodup h)

theorem buildDict_keys_nodup (statements : List Stmt) :
    ((buildDict statements).map Prod.fst).Nodup :=
  buildDictAux_keys_nodup statements [] 0 (by simp)

theorem buildDict_value_inj {statements : List Stmt} {k1 k2 : Int} {v : Nat}
    (h1 : (k1, v) ∈ buildDict statements) (h2 : (k2, v) ∈ buildDict statements) :
    k1 = k2 := by
  obtain ⟨_, s, hs, hqs⟩ := buildDict_mem h1
  obtain ⟨_, t, ht, hqt⟩ := buildDict_mem h2
  rw [hs] at ht
  cases ht
  rw [hqs] at hqt
  cases hqt
  rfl

/-! ### Helper lemmas about the window scan -/

theorem find?_range'_min {p : Nat → Bool} :
    ∀ (n k s : Nat), (List.range' k n).find? p = some s →
      ∀ t, k ≤ t → t < s → p t = false := by
  intro n
  induction n with
  | zero => intro k s h; simp at h
  | succ m ih =>
    intro k s h t hkt hts
    rw [List.range'_succ] at h
    cases hp : p k with
    | true =>
      rw [List.find?_cons_of_pos _ hp] at h
      cases h
      omega
    | false =>
      rw [List.find?_cons_of_neg _ (by simp [hp])] at h
      rcases Nat.lt_or_ge t (k + 1) with h1 | h1
      · have ht : t = k := by omega
        rw [ht]; exact hp
      · exact ih (k + 1) s h t h1 hts

theorem findStart_lt {offsets : List Int} {distance start : Nat}
    (h : findStart offsets distance = some start) :
    start + distance < offsets.length := by
  have hmem := List.mem_of_find?_eq_some h
  have := List.mem_range.mp hmem
  omega

theorem findStart_windowEq {offsets : List Int} {distance start : Nat}
    (h : findStart offsets distance = some start) :
    windowEq offsets distance start = true :=
  List.find?_some h

theorem findStart_first {offsets : List Int} {distance start : Nat}
    (h : findStart offsets distance = some start) :
    ∀ t < start, windowEq offsets distance t = false := by
  intro t ht
  unfold findStart at h
  rw [List.range_eq_range'] at h
  exact find?_range'_min _ 0 start h t (Nat.zero_le t) ht

theorem sortedOffsets_mem_keys {d : List (Int × Nat)} {k : Int}
    (h : k ∈ sortedOffsets d) : k ∈ d.map Prod.fst :=
  (List.perm_insertionSort (· ≤ ·) (d.map Prod.fst)).mem_iff.mp h

theorem sortedOffsets_nodup (statements : List Stmt) :
    (sortedOffsets (buildDict statements)).Nodup :=
  ((List.perm_insertionSort (· ≤ ·) _).nodup_iff).mpr (buildDict_keys_nodup statements)

theorem windowIndices_mem_dict {statements : List Stmt} {distance start : Nat} {v : Nat}
    (hstart : start + distance < (sortedOffsets (buildDict statements)).length)
    (hv : v ∈ windowIndices (buildDict statements) (sortedOffsets (buildDict statements))
      distance start) :
    ∃ k, (k, v) ∈ buildDict statements := by
  rcases List.mem_map.mp hv with ⟨i, hi, hvi⟩
  have hi2 : i < distance + 1 := List.mem_range.mp hi
  have hlt : start + i < (sortedOffsets (buildDict statements)).length := by omega
  have hkeys : (sortedOffsets (buildDict statements)).getD (start + i) 0 ∈
      (buildDict statements).map Prod.fst :=
    sortedOffsets_mem_keys (getD_mem hlt)
  exact ⟨_, hvi ▸ dictGet_mem hkeys⟩

theorem windowIndices_bound {statements : List Stmt} {distance start : Nat}
    (hstart : start + distance < (sortedOffsets (buildDict statements)).length) :
    ∀ v ∈ windowIndices (buildDict statements) (sortedOffsets (buildDict statements))
      distance start, v < statements.length := by
  intro v hv
  obtain ⟨k, hk⟩ := windowIndices_mem_dict hstart hv
  exact (buildDict_mem hk).1

theorem windowIndices_nodup {statements : List Stmt} {distance start : Nat}
    (hstart : start + distance < (sortedOffsets (buildDict statements)).length) :
    (windowIndices (buildDict statements) (sortedOffsets (buildDict statements))
      distance start).Nodup := by
  unfold windowIndices
  apply List.Nodup.map_on ?_ (List.nodup_range _)
  intro i hi j hj hij
  have hi2 : i < distance + 1 := List.mem_range.mp hi
  have hj2 : j < distance + 1 := List.mem_range.mp hj
  have hilt : start + i < (sortedOffsets (buildDict statements)).length := by omega
  have hjlt : start + j < (sortedOffsets (buildDict statements)).length := by omega
  have hmi : ((sortedOffsets (buildDict statements)).getD (start + i) 0,
      dictGet (buildDict statements) ((sortedOffsets (buildDict statements)).getD (start + i) 0))
      ∈ buildDict statements :=
    dictGet_mem (sortedOffsets_mem_keys (getD_mem hilt))
  have hmj : ((sortedOffsets (buildDict statements)).getD (start + j) 0,
      dictGet (buildDict statements) ((sortedOffsets (buildDict statements)).getD (start + j) 0))
      ∈ buildDict statements :=
    dictGet_mem (sortedOffsets_mem_keys (getD_mem hjlt))
  rw [hij] at hmi
  have hkeq := buildDict_value_inj hmi hmj
  rw [List.getD_eq_getElem _ _ hilt, List.getD_eq_getElem _ _ hjlt] at hkeq
  have := (List.Nodup.getElem_inj_iff (sortedOffsets_nodup statements)).mp hkeq
  omega

/-! ### Helper lemmas about the pruning phases -/

theorem pruneStackWrites_empty {statements : List Stmt} {deobfLen : Nat}
    (hemp : (sortedOffsets (buildDict statements)).isEmpty = true) :
    pruneStackWrites statements deobfLen = statements := by
  unfold pruneStackWrites
  rw [if_pos hemp]

theorem pruneStackWrites_some {statements : List Stmt} {deobfLen start : Nat}
    (hemp : (sortedOffsets (buildDict statements)).isEmpty = false)
    (hf : findStart (sortedOffsets (buildDict statements))
      (min (deobfLen - 2) ((sortedOffsets (buildDict statements)).length - 1)) = some start) :
    pruneStackWrites statements deobfLen =
      removeIndicesAux
        (windowIndices (buildDict statements) (sortedOffsets (buildDict statements))
          (min (deobfLen - 2) ((sortedOffsets (buildDict statements)).length - 1)) start)
        0 statements := by
  unfold pruneStackWrites
  simp only [hemp, Bool.false_eq_true, if_false, hf]

theorem pruneStackWrites_nofind {statements : List Stmt} {deobfLen : Nat}
    (hf : findStart (sortedOffsets (buildDict statements))
      (min (deobfLen - 2) ((sortedOffsets (buildDict statements)).length - 1)) = none) :
    pruneStackWrites statements deobfLen = statements := by
  unfold pruneStackWrites
  by_cases hemp : (sortedOffsets (buildDict statements)).isEmpty
  · rw [if_pos hemp]
  · rw [if_neg hemp, hf]

theorem pruneStackWrites_last (front : List Stmt) (c : Stmt) (n : Nat)
    (hc : isQualStore c = none) :
    ∃ f, pruneStackWrites (front ++ [c]) n = f ++ [c] := by
  by_cases hemp : (sortedOffsets (buildDict (front ++ [c]))).isEmpty
  · exact ⟨front, pruneStackWrites_empty hemp⟩
  · have hb : (sortedOffsets (buildDict (front ++ [c]))).isEmpty = false := by
      cases hh : (sortedOffsets (buildDict (front ++ [c]))).isEmpty
      · rfl
      · exact absurd hh hemp
    cases hf : findStart (sortedOffsets (buildDict (front ++ [c])))
        (min (n - 2) ((sortedOffsets (buildDict (front ++ [c]))).length - 1)) with
    | none => exact ⟨front, pruneStackWrites_nofind hf⟩
    | some start =>
      have heq := pruneStackWrites_some hb hf
      have hnot : ∀ v ∈ windowIndices (buildDict (front ++ [c]))
          (sortedOffsets (buildDict (front ++ [c])))
          (min (n - 2) ((sortedOffsets (buildDict (front ++ [c]))).length - 1)) start,
          v ≠ front.length := by
        intro v hv hveq
        obtain ⟨k, hk⟩ := windowIndices_mem_dict (findStart_lt hf) hv
        obtain ⟨_, s, hs, hq⟩ := buildDict_mem hk
        rw [hveq, List.getElem?_concat_length] at hs
        cases hs
        rw [hc] at hq
        cases hq
      have hcont : (windowIndices (buildDict (front ++ [c]))
          (sortedOffsets (buildDict (front ++ [c])))
          (min (n - 2) ((sortedOffsets (buildDict (front ++ [c]))).length - 1)) start).contains
            front.length = false := by
        cases hcc : (windowIndices (buildDict (front ++ [c]))
            (sortedOffsets (buildDict (front ++ [c])))
            (min (n - 2) ((sortedOffsets (buildDict (front ++ [c]))).length - 1)) start).contains
              front.length
        · rfl
        · exact absurd rfl (hnot front.length (contains_iff.mp hcc))
      refine ⟨removeIndicesAux (windowIndices (buildDict (front ++ [c]))
          (sortedOffsets (buildDict (front ++ [c])))
          (min (n - 2) ((sortedOffsets (buildDict (front ++ [c]))).length - 1)) start) 0 front, ?_⟩
      rw [heq, removeIndicesAux_append, Nat.zero_add, removeIndicesAux_cons, hcont]
      simp [removeIndicesAux]

theorem processBlock_eq (arch : Arch) (alloc : Allocator) (block : Block) (d : List Nat)
    (idx : Option Nat) (tgt : CallTarget) (a0 : Expr) (rest : List Expr)
    (ret : Option Expr) (tags : Tags)
    (hlast : block.statements.getLast? = some (.call idx tgt (some (a0 :: rest)) ret tags)) :
    processBlock arch alloc block d = some
      (Block.mk block.addr
        (pruneRegWrites arch
          (if d.length > 2
           then pruneStackWrites
             (block.statements.dropLast ++ [newCallOf arch alloc d idx a0 ret tags]) d.length
           else block.statements.dropLast ++ [newCallOf arch alloc d idx a0 ret tags])),
       (Allocator.allocate alloc d).2) := by
  unfold processBlock
  rw [hlast]
  rfl

theorem processBlock_shape (arch : Arch) (alloc : Allocator) (block : Block) (d : List Nat)
    (idx : Option Nat) (tgt : CallTarget) (a0 : Expr) (rest : List Expr)
    (ret : Option Expr) (tags : Tags)
    (hlast : block.statements.getLast? = some (.call idx tgt (some (a0 :: rest)) ret tags)) :
    ∃ blk2, processBlock arch alloc block d = some (blk2, (Allocator.allocate alloc d).2) ∧
      blk2.addr = block.addr ∧
      blk2.statements.getLast? = some (newCallOf arch alloc d idx a0 ret tags) := by
  rw [processBlock_eq arch alloc block d idx tgt a0 rest ret tags hlast]
  refine ⟨_, rfl, rfl, ?_⟩
  obtain ⟨f, hf⟩ : ∃ f, (if d.length > 2
      then pruneStackWrites
        (block.statements.dropLast ++ [newCallOf arch alloc d idx a0 ret tags]) d.length
      else block.statements.dropLast ++ [newCallOf arch alloc d idx a0 ret tags]) =
      f ++ [newCallOf arch alloc d idx a0 ret tags] := by
    by_cases hlen : d.length > 2
    · rw [if_pos hlen]
      exact pruneStackWrites_last _ _ _ rfl
    · rw [if_neg hlen]
      exact ⟨block.statements.dropLast, rfl⟩
  rw [hf]
  unfold pruneRegWrites
  by_cases harch : arch.name = "AMD64"
  · rw [if_pos harch, List.filter_append,
      show List.filter (fun s => !stmt_sets_win64_reg_arg s)
        [newCallOf arch alloc d idx a0 ret tags] =
        [newCallOf arch alloc d idx a0 ret tags] from rfl]
    exact List.getLast?_concat _
  · rw [if_neg harch]
    exact List.getLast?_concat _

/-! ### Helper lemmas about the allocator and the analysis loop -/

theorem allocate_of_findIdx_some (a : Allocator) (b : List Nat) (i : Nat)
    (h : a.findIdx? (fun c => c == b) = some i) : Allocator.allocate a b = (i, a) := by
  unfold Allocator.allocate
  rw [h]

theorem allocate_of_findIdx_none (a : Allocator) (b : List Nat)
    (h : a.findIdx? (fun c => c == b) = none) :
    Allocator.allocate a b = (a.length, a ++ [b]) := by
  unfold Allocator.allocate
  rw [h]

theorem allocate_idem (a : Allocator) (b : List Nat) :
    Allocator.allocate (Allocator.allocate a b).2 b = Allocator.allocate a b := by
  cases hf : a.findIdx? (fun c => c == b) with
  | some i =>
    rw [allocate_of_findIdx_some a b i hf]
    show Allocator.allocate a b = (i, a)
    exact allocate_of_findIdx_some a b i hf
  | none =>
    rw [allocate_of_findIdx_none a b hf]
    have happ : (a ++ [b]).findIdx? (fun c => c == b) = some a.length := by
      rw [List.findIdx?_append, hf]
      have hone : List.findIdx? (fun c => c == b) [b] = some 0 := by
        simp [List.findIdx?_cons]
      rw [hone]
      simp
    show Allocator.allocate (a ++ [b]) b = (a.length, a ++ [b])
    rw [allocate_of_findIdx_some (a ++ [b]) b a.length happ]

theorem analyzeBlock_noop {m : DeobfMap} {arch : Arch} {alloc : Allocator} {block : Block}
    (h : qualifies m block = false) :
    analyzeBlock m arch alloc block = some (block, alloc) := by
  unfold qualifies at h
  unfold analyzeBlock
  cases hL : block.statements.getLast? with
  | none => rfl
  | some s =>
    cases s with
    | call idx tgt args ret tags =>
      rw [hL] at h
      have h2 : (m.lookup tags.ins_addr).isSome = false := h
      show (match m.lookup tags.ins_addr with
        | some content => processBlock arch alloc block content
        | none => some (block, alloc)) = some (block, alloc)
      cases hlk : m.lookup tags.ins_addr with
      | none => rfl
      | some d => rw [hlk] at h2; cases h2
    | store a b t => rfl
    | assign a b t => rfl
    | other t => rfl

theorem analyzeBlock_proc {m : DeobfMap} {arch : Arch} {alloc : Allocator} {block : Block}
    {d : List Nat} {idx : Option Nat} {tgt : CallTarget} {args : Option (List Expr)}
    {ret : Option Expr} {tags : Tags}
    (hlast : block.statements.getLast? = some (.call idx tgt args ret tags))
    (hm : m.lookup tags.ins_addr = some d) :
    analyzeBlock m arch alloc block = processBlock arch alloc block d := by
  unfold analyzeBlock
  rw [hlast]
  show (match m.lookup tags.ins_addr with
    | some content => processBlock arch alloc block content
    | none => some (block, alloc)) = processBlock arch alloc block d
  rw [hm]

theorem analyzeBlocks_cons (m : DeobfMap) (arch : Arch) (alloc : Allocator) (b : Block)
    (rest : List Block) :
    analyzeBlocks m arch alloc (b :: rest) =
      match analyzeBlock m arch alloc b with
      | none => none
      | some (b2, alloc2) =>
        match analyzeBlocks m arch alloc2 rest with
        | none => none
        | some (rest2, alloc3) => some (b2 :: rest2, alloc3) := rfl

theorem analyzeBlocks_noop {m : DeobfMap} {arch : Arch} :
    ∀ (blocks : List Block) (alloc : Allocator) (blocks2 : List Block) (alloc2 : Allocator),
      analyzeBlocks m arch alloc blocks = some (blocks2, alloc2) →
      ∀ (i : Nat) (hi : i < blocks.length),
        qualifies m blocks[i] = false → blocks2[i]? = some blocks[i] := by
  intro blocks
  induction blocks with
  | nil => intro alloc blocks2 alloc2 h i hi; simp at hi
  | cons b rest ih =>
    intro alloc blocks2 alloc2 h i hi hq
    rw [analyzeBlocks_cons] at h
    cases hA : analyzeBlock m arch alloc b with
    | none => rw [hA] at h; cases h
    | some pa =>
      rw [hA] at h
      obtain ⟨b2, alloc3⟩ := pa
      have h2 : (match analyzeBlocks m arch alloc3 rest with
        | none => none
        | some (rest2, alloc4) => some (b2 :: rest2, alloc4)) =
          some (blocks2, alloc2) := h
      cases hR : analyzeBlocks m arch alloc3 rest with
      | none => rw [hR] at h2; cases h2
      | some pr =>
        rw [hR] at h2
        obtain ⟨rest2, alloc4⟩ := pr
        have h3 : some ((b2 :: rest2, alloc4) : List Block × Allocator) =
            some (blocks2, alloc2) := h2
        injection h3 with h4
        injection h4 with h5 h6
        subst h5
        cases i with
        | zero =>
          have hq0 : qualifies m b = false := by simpa using hq
          rw [analyzeBlock_noop hq0] at hA
          injection hA with hA2
          injection hA2 with hA3 hA4
          subst hA3
          simp
        | succ j =>
          have hj : j < rest.length := by simpa using hi
          have hqj : qualifies m rest[j] = false := by simpa using hq
          have := ih alloc3 rest2 alloc4 hR j hj hqj
          simpa using this

/-! ### Claim theorems -/

/-- Claim C1: for every block whose last statement is not a Call, or whose
last statement is a Call whose source address is not a key of the
deobfuscation map (including empty blocks), running the pass leaves that
block completely unchanged and it is not replaced in the graph. -/
theorem c1_nonmatching_block_unchanged (m : DeobfMap) (arch : Arch) (alloc : Allocator)
    (blocks blocks2 : List Block) (alloc2 : Allocator) (i : Nat)
    (hrun : runPass m arch alloc blocks = some (blocks2, alloc2))
    (hi : i < blocks.length)
    (hq : qualifies m blocks[i] = false) :
    blocks2[i]? = some blocks[i] := by
  unfold runPass at hrun
  by_cases hemp : m.isEmpty
  · rw [if_pos hemp] at hrun
    injection hrun with hp
    injection hp with hp1 hp2
    subst hp1
    exact List.getElem?_eq_getElem hi
  · rw [if_neg hemp] at hrun
    exact analyzeBlocks_noop blocks alloc blocks2 alloc2 hrun i hi hq

/-- Witness for C1: a block ending in an opaque statement passes through the
pass unchanged even though the map is non-empty. -/
theorem c1_witness : (([⟨1, [.other 3]⟩] : List Block))[0]? = some (⟨1, [.other 3]⟩ : Block) := by
  have h := c1_nonmatching_block_unchanged exMap arch64 [] [⟨1, [.other 3]⟩]
    [⟨1, [.other 3]⟩] [] 0 rfl (by decide) (by decide)
  exact h

/-- Claim C3: for every qualifying block, after rewriting, the block's final
statement is a Call named "init_str" with exactly three arguments: the
original call's first argument unchanged, a Constant holding the allocator's
id for the decoded bytes with the architecture's pointer bit-width tagged as
a custom string, and a Constant holding the decoded length with the same
width; index, tags and return binding are copied from the original call. -/
theorem c3_call_substitution_shape (m : DeobfMap) (arch : Arch) (alloc : Allocator)
    (block : Block) (d : List Nat) (idx : Option Nat) (tgt : CallTarget) (a0 : Expr)
    (rest : List Expr) (ret : Option Expr) (tags : Tags) (blk2 : Block) (alloc2 : Allocator)
    (hlast : block.statements.getLast? = some (.call idx tgt (some (a0 :: rest)) ret tags))
    (hm : m.lookup tags.ins_addr = some d)
    (hrun : analyzeBlock m arch alloc block = some (blk2, alloc2)) :
    blk2.statements.getLast? = some (.call idx (.name "init_str")
      (some [a0, .const (Allocator.allocate alloc d).1 arch.bits true,
        .const d.length arch.bits false]) ret tags) ∧
    alloc2 = (Allocator.allocate alloc d).2 := by
  obtain ⟨blk3, hp, _, hl⟩ := processBlock_shape arch alloc block d idx tgt a0 rest ret tags hlast
  rw [analyzeBlock_proc hlast hm, hp] at hrun
  injection hrun with hpair
  injection hpair with h1 h2
  subst h1
  subst h2
  exact ⟨hl, rfl⟩

/-- Witness for C3: the rewritten `exBlock` ends in the canonical call and
the allocator holds the decoded bytes. -/
theorem c3_witness :
    exBlock1.statements.getLast? = some (.call none (.name "init_str")
      (some [.other 7, .const (Allocator.allocate [] [97, 98, 99]).1 exArch.bits true,
        .const ([97, 98, 99] : List Nat).length exArch.bits false]) none ⟨100, 0⟩) ∧
    exAlloc1 = (Allocator.allocate [] [97, 98, 99]).2 :=
  c3_call_substitution_shape exMap exArch [] exBlock [97, 98, 99] none
    (.expr (.const 500 32 false)) (.other 7) [] none ⟨100, 0⟩ exBlock1 exAlloc1
    rfl rfl rfl

/-- Claim C7: on AMD64 the register-pruning step removes exactly the
assignments whose destination register is one of rcx, rdx, r8, r9,
regardless of position, preserves every other statement with its
multiplicity, and keeps the relative order; on any other architecture it
removes nothing. -/
theorem c7_register_pruning (arch : Arch) (statements : List Stmt) :
    (arch.name ≠ "AMD64" → pruneRegWrites arch statements = statements) ∧
    (arch.name = "AMD64" →
      (pruneRegWrites arch statements).Sublist statements ∧
      ∀ s, (pruneRegWrites arch statements).count s =
        if stmt_sets_win64_reg_arg s then 0 else statements.count s) := by
  constructor
  · intro h
    unfold pruneRegWrites
    rw [if_neg h]
  · intro h
    unfold pruneRegWrites
    rw [if_pos h]
    refine ⟨List.filter_sublist _, ?_⟩
    intro s
    by_cases hs : stmt_sets_win64_reg_arg s
    · rw [if_pos hs, List.count_eq_zero]
      intro hmem
      have h2 := (List.mem_filter.mp hmem).2
      rw [hs] at h2
      cases h2
    · rw [if_neg hs]
      apply List.count_filter
      cases hc : stmt_sets_win64_reg_arg s
      · rfl
      · exact absurd hc hs

/-- Witness for C7: on AMD64 the pruned list is a sublist of the original
and an rcx assignment has count zero afterwards. -/
theorem c7_witness :
    (pruneRegWrites arch64 w7).Sublist w7 ∧
    (pruneRegWrites arch64 w7).count (.assign (.register 24) (.other 1) ⟨0, 0⟩) = 0 := by
  have h := (c7_register_pruning arch64 w7).2 rfl
  refine ⟨h.1, ?_⟩
  have h2 := h.2 (.assign (.register 24) (.other 1) ⟨0, 0⟩)
  simpa using h2

/-- Claim C8: when a qualifying block's final call has a missing or empty
argument list, the rewrite fails with an error instead of producing a
malformed canonical call; with at least one argument, no error occurs. -/
theorem c8_malformed_call_errors (arch : Arch) (alloc : Allocator) (block : Block)
    (d : List Nat) (idx : Option Nat) (tgt : CallTarget) (args : Option (List Expr))
    (ret : Option Expr) (tags : Tags)
    (hlast : block.statements.getLast? = some (.call idx tgt args ret tags)) :
    ((args = none ∨ args = some []) → processBlock arch alloc block d = none) ∧
    (∀ a0 rest, args = some (a0 :: rest) → (processBlock arch alloc block d).isSome = true) := by
  constructor
  · rintro (h | h) <;> subst h <;> (unfold processBlock; rw [hlast])
  · intro a0 rest h
    subst h
    rw [processBlock_eq arch alloc block d idx tgt a0 rest ret tags hlast]
    rfl

/-- Witness for C8: a final call with an empty argument list makes the
rewrite fail. -/
theorem c8_witness : processBlock exArch [] w8Block [1, 2, 3] = none :=
  (c8_malformed_call_errors exArch [] w8Block [1, 2, 3] none
    (.expr (.const 5 32 false)) (some []) none ⟨7, 0⟩ rfl).1 (Or.inr rfl)

/-- Claim C2 counterexample: running the pass on `exBlock` yields `exBlock1`,
but running it again on the result yields the strictly different `exBlock2`
(two more stack stores are pruned), so applying the pass twice is not the
same as applying it once.  Moreover the rewritten block still qualifies on
the second run: the synthesized call keeps the original instruction address
(copied through the tags), which is still a key of the map. -/
theorem c2_counterexample :
    runPass exMap exArch [] [exBlock] = some ([exBlock1], exAlloc1) ∧
    runPass exMap exArch exAlloc1 [exBlock1] = some ([exBlock2], exAlloc1) ∧
    exBlock2 ≠ exBlock1 ∧
    qualifies exMap exBlock1 = true :=
  ⟨by decide, by decide, by decide, by decide⟩

/-- Claim C2 (amended): re-running the pass on an already-rewritten block
processes it again, because the synthesized canonical call keeps the
original call's source address; the second run nevertheless leaves the
allocator unchanged and rebuilds an identical final call statement (the
block may still shrink further through stack-write pruning). -/
theorem c2_second_run_stable_call (m : DeobfMap) (arch : Arch) (alloc : Allocator)
    (block : Block) (d : List Nat) (idx : Option Nat) (tgt : CallTarget) (a0 : Expr)
    (rest : List Expr) (ret : Option Expr) (tags : Tags) (blk1 : Block) (alloc1 : Allocator)
    (hlast : block.statements.getLast? = some (.call idx tgt (some (a0 :: rest)) ret tags))
    (hm : m.lookup tags.ins_addr = some d)
    (h1 : analyzeBlock m arch alloc block = some (blk1, alloc1)) :
    ∃ blk2, analyzeBlock m arch alloc1 blk1 = some (blk2, alloc1) ∧
      blk2.statements.getLast? = blk1.statements.getLast? := by
  obtain ⟨blk1b, hp1, _, hl1⟩ := processBlock_shape arch alloc block d idx tgt a0 rest ret tags hlast
  rw [analyzeBlock_proc hlast hm, hp1] at h1
  injection h1 with hpair
  injection hpair with he1 he2
  subst he1
  subst he2
  have hl1b : blk1b.statements.getLast? = some (.call idx (.name "init_str")
      (some ((a0 : Expr) ::
        [.const (Allocator.allocate alloc d).1 arch.bits true,
         .const d.length arch.bits false])) ret tags) := hl1
  obtain ⟨blk2, hp2, _, hl2⟩ := processBlock_shape arch (Allocator.allocate alloc d).2 blk1b d
    idx (.name "init_str") a0
    [.const (Allocator.allocate alloc d).1 arch.bits true,
     .const d.length arch.bits false] ret tags hl1b
  refine ⟨blk2, ?_, ?_⟩
  · rw [analyzeBlock_proc hl1b hm, hp2, (congrArg Prod.snd (allocate_idem alloc d))]
  · rw [hl2, hl1]
    unfold newCallOf
    rw [allocate_idem alloc d]

/-- Witness for the amended C2: on the concrete example, the second run of
the pass keeps the allocator and the final call statement of `exBlock1`. -/
theorem c2_second_run_stable_call_witness :
    ∃ blk2, analyzeBlock exMap exArch exAlloc1 exBlock1 = some (blk2, exAlloc1) ∧
      blk2.statements.getLast? = exBlock1.statements.getLast? := by
  have h := c2_second_run_stable_call exMap exArch [] exBlock [97, 98, 99] none
    (.expr (.const 500 32 false)) (.other 7) [] none ⟨100, 0⟩ exBlock1 exAlloc1
    rfl rfl (by decide)
  exact h

/-- Claim C4: for a qualifying block whose decoded byte sequence has length
at most 2, stack-write pruning is skipped entirely: the rewritten statement
list is just the register-pruned substituted list, and in particular every
Store statement of the block's prefix survives unchanged and in order. -/
theorem c4_short_strings_skip_pruning (arch : Arch) (alloc : Allocator) (block : Block)
    (d : List Nat) (idx : Option Nat) (tgt : CallTarget) (a0 : Expr) (rest : List Expr)
    (ret : Option Expr) (tags : Tags) (blk2 : Block) (alloc2 : Allocator)
    (hlast : block.statements.getLast? = some (.call idx tgt (some (a0 :: rest)) ret tags))
    (hshort : d.length ≤ 2)
    (hp : processBlock arch alloc block d = some (blk2, alloc2)) :
    blk2.statements = pruneRegWrites arch
      (block.statements.dropLast ++ [newCallOf arch alloc d idx a0 ret tags]) ∧
    blk2.statements.filter isStore = block.statements.dropLast.filter isStore := by
  rw [processBlock_eq arch alloc block d idx tgt a0 rest ret tags hlast] at hp
  have hlen : ¬ d.length > 2 := by omega
  rw [if_neg hlen] at hp
  injection hp with hpair
  injection hpair with he1 he2
  subst he1
  refine ⟨rfl, ?_⟩
  show (pruneRegWrites arch
      (block.statements.dropLast ++ [newCallOf arch alloc d idx a0 ret tags])).filter isStore =
    block.statements.dropLast.filter isStore
  have hbase : (block.statements.dropLast ++
      [newCallOf arch alloc d idx a0 ret tags]).filter isStore =
      block.statements.dropLast.filter isStore := by
    rw [List.filter_append]
    simp [isStore, newCallOf]
  unfold pruneRegWrites
  by_cases harch : arch.name = "AMD64"
  · rw [if_pos harch, List.filter_filter]
    rw [List.filter_congr ?_]
    · exact hbase
    · intro a _
      cases a with
      | call i t ar r tg => rfl
      | store ad da tg => rfl
      | assign ds sr tg =>
        cases hc : stmt_sets_win64_reg_arg (Stmt.assign ds sr tg) <;> rfl
      | other t => rfl
  · rw [if_neg harch]
    exact hbase

/-- Witness for C4: a two-byte decoded string leaves the single stack store
of `w4Block` in place. -/
theorem c4_witness :
    (Block.mk 5 [stByte (-8) 7,
      .call none (.name "init_str")
        (some [.other 7, .const (Allocator.allocate [] [97, 98]).1 exArch.bits true,
          .const ([97, 98] : List Nat).length exArch.bits false]) none ⟨100, 0⟩]).statements =
      pruneRegWrites exArch
        (w4Block.statements.dropLast ++ [newCallOf exArch [] [97, 98] none (.other 7) none ⟨100, 0⟩]) ∧
    (Block.mk 5 [stByte (-8) 7,
      .call none (.name "init_str")
        (some [.other 7, .const (Allocator.allocate [] [97, 98]).1 exArch.bits true,
          .const ([97, 98] : List Nat).length exArch.bits false]) none ⟨100, 0⟩]).statements.filter
        isStore =
      w4Block.statements.dropLast.filter isStore :=
  c4_short_strings_skip_pruning exArch [] w4Block [97, 98] none
    (.expr (.const 500 32 false)) (.other 7) [] none ⟨100, 0⟩ _ _
    rfl (by decide) rfl

/-- Claim C9: when the decoded bytes are longer than 2 and exactly one
qualifying byte store was collected, the window distance is 0, the endpoint
equality holds trivially at the first start index, and that single store is
removed regardless of its offset value. -/
theorem c9_single_store_removed (pre post : List Stmt) (s : Stmt) (off : Int) (n : Nat)
    (_hn : 2 < n) (hq : isQualStore s = some off)
    (hpre : ∀ t ∈ pre, isQualStore t = none)
    (hpost : ∀ t ∈ post, isQualStore t = none) :
    min (n - 2) ((sortedOffsets (buildDict (pre ++ s :: post))).length - 1) = 0 ∧
    pruneStackWrites (pre ++ s :: post) n = pre ++ post := by
  have hdict : buildDict (pre ++ s :: post) = [(off, pre.length)] := by
    unfold buildDict
    rw [buildDictAux_append, buildDictAux_none pre [] 0 hpre, Nat.zero_add,
      buildDictAux_cons_some [] pre.length post hq,
      buildDictAux_none post _ _ hpost]
    rfl
  have hsorted : sortedOffsets (buildDict (pre ++ s :: post)) = [off] := by
    rw [hdict]; rfl
  refine ⟨by rw [hsorted]; simp, ?_⟩
  have hemp : (sortedOffsets (buildDict (pre ++ s :: post))).isEmpty = false := by
    rw [hsorted]; rfl
  have hfind : findStart (sortedOffsets (buildDict (pre ++ s :: post)))
      (min (n - 2) ((sortedOffsets (buildDict (pre ++ s :: post))).length - 1)) = some 0 := by
    rw [hsorted]
    show findStart [off] (min (n - 2) 0) = some 0
    rw [Nat.min_zero]
    unfold findStart windowEq
    simp
  rw [pruneStackWrites_some hemp hfind, hsorted, hdict]
  have hwin : windowIndices [(off, pre.length)] [off]
      (min (n - 2) (([off] : List Int).length - 1)) 0 = [pre.length] := by
    rw [show (([off] : List Int).length - 1) = 0 from rfl, Nat.min_zero]
    unfold windowIndices dictGet
    rw [show List.range 1 = [0] from rfl]
    simp
  rw [hwin, removeIndicesAux_append, Nat.zero_add, removeIndicesAux_cons]
  have hcont : ([pre.length] : List Nat).contains pre.length = true := by simp
  rw [hcont, if_pos rfl,
    removeIndicesAux_out [pre.length] 0 pre (by intro i hi; right; simp at hi; omega),
    removeIndicesAux_out [pre.length] (pre.length + 1) post
      (by intro i hi; left; simp at hi; omega)]

/-- Witness for C9: a single byte store between two opaque statements is
removed for a 9-byte decoded string. -/
theorem c9_witness :
    min (9 - 2) ((sortedOffsets (buildDict
      ([Stmt.other 1] ++ stByte (-100) 5 :: [Stmt.other 2]))).length - 1) = 0 ∧
    pruneStackWrites ([Stmt.other 1] ++ stByte (-100) 5 :: [Stmt.other 2]) 9 =
      [Stmt.other 1] ++ [Stmt.other 2] :=
  c9_single_store_removed [.other 1] [.other 2] (stByte (-100) 5) (-100) 9
    (by decide) (by decide) (by decide) (by decide)

/-- Claim C10: when two qualifying byte stores target the same stack offset,
only a later position is recorded in the dictionary for that offset, so the
earlier store is never removed by stack-write pruning. -/
theorem c10_duplicate_offsets (l1 l2 l3 : List Stmt) (s1 s2 : Stmt) (off : Int) (n : Nat)
    (hq1 : isQualStore s1 = some off) (hq2 : isQualStore s2 = some off) :
    (∀ v, (off, v) ∈ buildDict (l1 ++ s1 :: (l2 ++ s2 :: l3)) → l1.length < v) ∧
    (∃ x y, pruneStackWrites (l1 ++ s1 :: (l2 ++ s2 :: l3)) n = x ++ s1 :: y ∧
      x.Sublist l1 ∧ y.Sublist (l2 ++ s2 :: l3)) := by
  have hpart1 : ∀ v, (off, v) ∈ buildDict (l1 ++ s1 :: (l2 ++ s2 :: l3)) → l1.length < v := by
    intro v hv
    unfold buildDict at hv
    rw [buildDictAux_append, Nat.zero_add, buildDictAux_cons_some _ _ _ hq1,
      buildDictAux_append, buildDictAux_cons_some _ _ _ hq2] at hv
    rcases buildDictAux_mem l3 _ _ _ hv with h1 | ⟨h2, _, _⟩
    · rcases mem_dictInsert h1 with ⟨_, hne⟩ | hp
      · exact absurd rfl hne
      · injection hp with ha hb
        omega
    · simp only at h2
      omega
  refine ⟨hpart1, ?_⟩
  by_cases hemp : (sortedOffsets (buildDict (l1 ++ s1 :: (l2 ++ s2 :: l3)))).isEmpty
  · exact ⟨l1, l2 ++ s2 :: l3, pruneStackWrites_empty hemp,
      List.Sublist.refl l1, List.Sublist.refl _⟩
  · have hb : (sortedOffsets (buildDict (l1 ++ s1 :: (l2 ++ s2 :: l3)))).isEmpty = false := by
      cases hh : (sortedOffsets (buildDict (l1 ++ s1 :: (l2 ++ s2 :: l3)))).isEmpty
      · rfl
      · exact absurd hh hemp
    cases hf : findStart (sortedOffsets (buildDict (l1 ++ s1 :: (l2 ++ s2 :: l3))))
        (min (n - 2) ((sortedOffsets (buildDict (l1 ++ s1 :: (l2 ++ s2 :: l3)))).length - 1)) with
    | none =>
      exact ⟨l1, l2 ++ s2 :: l3, pruneStackWrites_nofind hf,
        List.Sublist.refl l1, List.Sublist.refl _⟩
    | some start =>
      have hnot : ∀ v ∈ windowIndices (buildDict (l1 ++ s1 :: (l2 ++ s2 :: l3)))
          (sortedOffsets (buildDict (l1 ++ s1 :: (l2 ++ s2 :: l3))))
          (min (n - 2) ((sortedOffsets (buildDict (l1 ++ s1 :: (l2 ++ s2 :: l3)))).length - 1))
          start, v ≠ l1.length := by
        intro v hv hveq
        obtain ⟨k, hk⟩ := windowIndices_mem_dict (findStart_lt hf) hv
        obtain ⟨_, u, hu, hqu⟩ := buildDict_mem hk
        rw [hveq, List.getElem?_append_right (Nat.le_refl l1.length), Nat.sub_self,
          List.getElem?_cons_zero] at hu
        cases hu
        rw [hq1] at hqu
        injection hqu with hkoff
        subst hkoff
        have := hpart1 v hk
        omega
      have hcont : (windowIndices (buildDict (l1 ++ s1 :: (l2 ++ s2 :: l3)))
          (sortedOffsets (buildDict (l1 ++ s1 :: (l2 ++ s2 :: l3))))
          (min (n - 2) ((sortedOffsets (buildDict (l1 ++ s1 :: (l2 ++ s2 :: l3)))).length - 1))
          start).contains l1.length = false := by
        cases hcc : (windowIndices (buildDict (l1 ++ s1 :: (l2 ++ s2 :: l3)))
            (sortedOffsets (buildDict (l1 ++ s1 :: (l2 ++ s2 :: l3))))
            (min (n - 2) ((sortedOffsets (buildDict (l1 ++ s1 :: (l2 ++ s2 :: l3)))).length - 1))
            start).contains l1.length
        · rfl
        · exact absurd rfl (hnot l1.length (contains_iff.mp hcc))
      refine ⟨removeIndicesAux (windowIndices (buildDict (l1 ++ s1 :: (l2 ++ s2 :: l3)))
          (sortedOffsets (buildDict (l1 ++ s1 :: (l2 ++ s2 :: l3))))
          (min (n - 2) ((sortedOffsets (buildDict (l1 ++ s1 :: (l2 ++ s2 :: l3)))).length - 1))
          start) 0 l1,
        removeIndicesAux (windowIndices (buildDict (l1 ++ s1 :: (l2 ++ s2 :: l3)))
          (sortedOffsets (buildDict (l1 ++ s1 :: (l2 ++ s2 :: l3))))
          (min (n - 2) ((sortedOffsets (buildDict (l1 ++ s1 :: (l2 ++ s2 :: l3)))).length - 1))
          start) (l1.length + 1) (l2 ++ s2 :: l3), ?_,
        removeIndicesAux_sublist _ _ _, removeIndicesAux_sublist _ _ _⟩
      rw [pruneStackWrites_some hb hf, removeIndicesAux_append, Nat.zero_add,
        removeIndicesAux_cons, hcont]
      simp only [Bool.false_eq_true, if_false]

/-- Witness for C10: two byte stores to offset -8; the later one is recorded
at position 1, and the earlier one survives pruning. -/
theorem c10_witness :
    (0 : Nat) < 1 ∧
    (∃ x y, pruneStackWrites ([] ++ stByte (-8) 1 :: ([] ++ stByte (-8) 2 :: [])) 5 =
      x ++ stByte (-8) 1 :: y ∧ x.Sublist [] ∧ y.Sublist ([] ++ stByte (-8) 2 :: [])) := by
  have h := c10_duplicate_offsets [] [] [] (stByte (-8) 1) (stByte (-8) 2) (-8) 5
    (by decide) (by decide)
  exact ⟨h.1 1 (by decide), h.2⟩

theorem findStart_ne_nil {offsets : List Int} {distance start : Nat}
    (h : findStart offsets distance = some start) : offsets.isEmpty = false := by
  cases offsets with
  | nil =>
    exfalso
    unfold findStart at h
    simp at h
  | cons a l => rfl

/-- Claim C5: the window scan removes exactly the `distance + 1` recorded
statements of the first window (smallest start index) whose two endpoint
offsets are `8 * distance` apart, and stops there; when no start index
satisfies the endpoint equality, or no qualifying store was collected,
nothing is removed and no error occurs; interior offsets are never
checked (the endpoint test `windowEq` is the only condition consulted). -/
theorem c5_window_scan (statements : List Stmt) (n : Nat) :
    (buildDict statements = [] → pruneStackWrites statements n = statements) ∧
    (findStart (sortedOffsets (buildDict statements))
        (min (n - 2) ((sortedOffsets (buildDict statements)).length - 1)) = none →
      pruneStackWrites statements n = statements) ∧
    (∀ start, findStart (sortedOffsets (buildDict statements))
        (min (n - 2) ((sortedOffsets (buildDict statements)).length - 1)) = some start →
      windowEq (sortedOffsets (buildDict statements))
        (min (n - 2) ((sortedOffsets (buildDict statements)).length - 1)) start = true ∧
      (∀ t, t < start → windowEq (sortedOffsets (buildDict statements))
        (min (n - 2) ((sortedOffsets (buildDict statements)).length - 1)) t = false) ∧
      pruneStackWrites statements n =
        removeIndicesAux (windowIndices (buildDict statements)
          (sortedOffsets (buildDict statements))
          (min (n - 2) ((sortedOffsets (buildDict statements)).length - 1)) start)
          0 statements ∧
      (pruneStackWrites statements n).length +
        (min (n - 2) ((sortedOffsets (buildDict statements)).length - 1) + 1) =
        statements.length) := by
  refine ⟨?_, ?_, ?_⟩
  · intro h
    apply pruneStackWrites_empty
    rw [h]
    rfl
  · intro hf
    exact pruneStackWrites_nofind hf
  · intro start hf
    have hemp : (sortedOffsets (buildDict statements)).isEmpty = false := findStart_ne_nil hf
    have hC := pruneStackWrites_some hemp hf
    have hstart := findStart_lt hf
    have hlen := removeIndices_length (windowIndices_nodup hstart) (windowIndices_bound hstart)
    have hwl : (windowIndices (buildDict statements) (sortedOffsets (buildDict statements))
        (min (n - 2) ((sortedOffsets (buildDict statements)).length - 1)) start).length =
        min (n - 2) ((sortedOffsets (buildDict statements)).length - 1) + 1 := by
      unfold windowIndices
      simp
    refine ⟨findStart_windowEq hf, fun t ht => findStart_first hf t ht, hC, ?_⟩
    rw [hC]
    rw [hwl] at hlen
    exact hlen

/-- Witness for C5: stores at offsets 0, 3 and 16 with a 4-byte decoded
string give distance 2; the window at start 0 matches because the endpoints
0 and 16 are 8 * 2 apart even though the interior offset 3 is not evenly
spaced, and all three stores are removed. -/
theorem c5_witness :
    windowEq (sortedOffsets (buildDict w5Stmts))
      (min (4 - 2) ((sortedOffsets (buildDict w5Stmts)).length - 1)) 0 = true ∧
    pruneStackWrites w5Stmts 4 =
      removeIndicesAux (windowIndices (buildDict w5Stmts) (sortedOffsets (buildDict w5Stmts))
        (min (4 - 2) ((sortedOffsets (buildDict w5Stmts)).length - 1)) 0) 0 w5Stmts ∧
    (pruneStackWrites w5Stmts 4).length +
      (min (4 - 2) ((sortedOffsets (buildDict w5Stmts)).length - 1) + 1) =
      w5Stmts.length := by
  have h := (c5_window_scan w5Stmts 4).2.2 0 (by decide)
  exact ⟨h.1, h.2.2.1, h.2.2.2⟩

/-- Claim C6: a qualifying block with single-byte stack stores at offsets
-0x20, -0x18 and -0x10 and a 3-byte decoded string has distance
`min (3 - 2, 3 - 1) = 1`; exactly the two consecutive stores at -0x20 and
-0x18 (whose offsets differ by 8 * 1) are removed, every other statement is
preserved in order, and the canonical call is the final statement. -/
theorem c6_window_match (arch : Arch) (alloc : Allocator) (a : Nat)
    (b1 b2 b3 w1 w2 w3 : Nat) (c1 c2 c3 : Bool) (tg1 tg2 tg3 : Tags) (s t : Stmt)
    (d : List Nat) (idx : Option Nat) (tgt : CallTarget) (a0 : Expr) (rest : List Expr)
    (ret : Option Expr) (tags : Tags)
    (hb1 : b1 ≤ 0xFF) (hb2 : b2 ≤ 0xFF) (hb3 : b3 ≤ 0xFF)
    (hd : d.length = 3)
    (hs : isQualStore s = none) (ht : isQualStore t = none)
    (hsreg : stmt_sets_win64_reg_arg s = false) (htreg : stmt_sets_win64_reg_arg t = false) :
    processBlock arch alloc
      (Block.mk a [.store (.stackBaseOffset (-32)) (.const b1 w1 c1) tg1, s,
        .store (.stackBaseOffset (-24)) (.const b2 w2 c2) tg2, t,
        .store (.stackBaseOffset (-16)) (.const b3 w3 c3) tg3,
        .call idx tgt (some (a0 :: rest)) ret tags]) d =
      some (Block.mk a [s, t, .store (.stackBaseOffset (-16)) (.const b3 w3 c3) tg3,
        .call idx (.name "init_str")
          (some [a0, .const (Allocator.allocate alloc d).1 arch.bits true,
            .const d.length arch.bits false]) ret tags],
        (Allocator.allocate alloc d).2) := by
  have hq1 : isQualStore (.store (.stackBaseOffset (-32)) (.const b1 w1 c1) tg1) =
      some (-32) := by
    show (if b1 ≤ 0xFF then some ((-32 : Int)) else none) = some (-32)
    rw [if_pos hb1]
  have hq2 : isQualStore (.store (.stackBaseOffset (-24)) (.const b2 w2 c2) tg2) =
      some (-24) := by
    show (if b2 ≤ 0xFF then some ((-24 : Int)) else none) = some (-24)
    rw [if_pos hb2]
  have hq3 : isQualStore (.store (.stackBaseOffset (-16)) (.const b3 w3 c3) tg3) =
      some (-16) := by
    show (if b3 ≤ 0xFF then some ((-16 : Int)) else none) = some (-16)
    rw [if_pos hb3]
  have hqnc : isQualStore (newCallOf arch alloc d idx a0 ret tags) = none := rfl
  have hdict : buildDict [.store (.stackBaseOffset (-32)) (.const b1 w1 c1) tg1, s,
      .store (.stackBaseOffset (-24)) (.const b2 w2 c2) tg2, t,
      .store (.stackBaseOffset (-16)) (.const b3 w3 c3) tg3,
      newCallOf arch alloc d idx a0 ret tags] = [(-32, 0), (-24, 2), (-16, 4)] := by
    unfold buildDict
    rw [buildDictAux_cons_some _ _ _ hq1, buildDictAux_cons_none _ _ _ hs,
      buildDictAux_cons_some _ _ _ hq2, buildDictAux_cons_none _ _ _ ht,
      buildDictAux_cons_some _ _ _ hq3, buildDictAux_cons_none _ _ _ hqnc]
    rfl
  have hemp : (sortedOffsets (buildDict [.store (.stackBaseOffset (-32)) (.const b1 w1 c1) tg1,
      s, .store (.stackBaseOffset (-24)) (.const b2 w2 c2) tg2, t,
      .store (.stackBaseOffset (-16)) (.const b3 w3 c3) tg3,
      newCallOf arch alloc d idx a0 ret tags])).isEmpty = false := by
    rw [hdict]
    rfl
  have hfind : findStart (sortedOffsets (buildDict
      [.store (.stackBaseOffset (-32)) (.const b1 w1 c1) tg1, s,
       .store (.stackBaseOffset (-24)) (.const b2 w2 c2) tg2, t,
       .store (.stackBaseOffset (-16)) (.const b3 w3 c3) tg3,
       newCallOf arch alloc d idx a0 ret tags]))
      (min (d.length - 2) ((sortedOffsets (buildDict
        [.store (.stackBaseOffset (-32)) (.const b1 w1 c1) tg1, s,
         .store (.stackBaseOffset (-24)) (.const b2 w2 c2) tg2, t,
         .store (.stackBaseOffset (-16)) (.const b3 w3 c3) tg3,
         newCallOf arch alloc d idx a0 ret tags])).length - 1)) = some 0 := by
    rw [hdict, hd]
    rfl
  have hprune : pruneStackWrites [.store (.stackBaseOffset (-32)) (.const b1 w1 c1) tg1, s,
      .store (.stackBaseOffset (-24)) (.const b2 w2 c2) tg2, t,
      .store (.stackBaseOffset (-16)) (.const b3 w3 c3) tg3,
      newCallOf arch alloc d idx a0 ret tags] d.length =
      [s, t, .store (.stackBaseOffset (-16)) (.const b3 w3 c3) tg3,
       newCallOf arch alloc d idx a0 ret tags] := by
    rw [pruneStackWrites_some hemp hfind, hdict, hd]
    rfl
  have hncreg : stmt_sets_win64_reg_arg (newCallOf arch alloc d idx a0 ret tags) = false := rfl
  have hreg : pruneRegWrites arch [s, t,
      .store (.stackBaseOffset (-16)) (.const b3 w3 c3) tg3,
      newCallOf arch alloc d idx a0 ret tags] =
      [s, t, .store (.stackBaseOffset (-16)) (.const b3 w3 c3) tg3,
       newCallOf arch alloc d idx a0 ret tags] := by
    unfold pruneRegWrites
    by_cases harch : arch.name = "AMD64"
    · rw [if_pos harch]
      have hS3 : stmt_sets_win64_reg_arg
          (.store (.stackBaseOffset (-16)) (.const b3 w3 c3) tg3) = false := rfl
      simp [List.filter_cons, hsreg, htreg, hncreg, hS3]
    · rw [if_neg harch]
  rw [processBlock_eq arch alloc
    (Block.mk a [.store (.stackBaseOffset (-32)) (.const b1 w1 c1) tg1, s,
      .store (.stackBaseOffset (-24)) (.const b2 w2 c2) tg2, t,
      .store (.stackBaseOffset (-16)) (.const b3 w3 c3) tg3,
      .call idx tgt (some (a0 :: rest)) ret tags]) d idx tgt a0 rest ret tags rfl]
  have hdrop : (Block.mk a [.store (.stackBaseOffset (-32)) (.const b1 w1 c1) tg1, s,
      .store (.stackBaseOffset (-24)) (.const b2 w2 c2) tg2, t,
      .store (.stackBaseOffset (-16)) (.const b3 w3 c3) tg3,
      .call idx tgt (some (a0 :: rest)) ret tags]).statements.dropLast ++
      [newCallOf arch alloc d idx a0 ret tags] =
      [.store (.stackBaseOffset (-32)) (.const b1 w1 c1) tg1, s,
       .store (.stackBaseOffset (-24)) (.const b2 w2 c2) tg2, t,
       .store (.stackBaseOffset (-16)) (.const b3 w3 c3) tg3,
       newCallOf arch alloc d idx a0 ret tags] := rfl
  rw [hdrop, if_pos (show d.length > 2 from by omega), hprune, hreg]
  rfl

/-- Witness for C6: the scenario instantiated with bytes 97, 98, 99, an rbx
assignment and an opaque statement interleaved, on AMD64. -/
theorem c6_witness :
    processBlock arch64 []
      (Block.mk 2000 [.store (.stackBaseOffset (-32)) (.const 97 8 false) ⟨0, 0⟩,
        .assign (.register 40) (.const 1 64 false) ⟨201, 0⟩,
        .store (.stackBaseOffset (-24)) (.const 98 8 false) ⟨0, 0⟩,
        .other 11,
        .store (.stackBaseOffset (-16)) (.const 99 8 false) ⟨0, 0⟩,
        .call (some 5) (.expr (.const 600 64 false)) (some [.other 9])
          (some (.register 16)) ⟨200, 3⟩]) [97, 98, 99] =
      some (Block.mk 2000 [.assign (.register 40) (.const 1 64 false) ⟨201, 0⟩,
        .other 11,
        .store (.stackBaseOffset (-16)) (.const 99 8 false) ⟨0, 0⟩,
        .call (some 5) (.name "init_str")
          (some [.other 9, .const (Allocator.allocate [] [97, 98, 99]).1 arch64.bits true,
            .const ([97, 98, 99] : List Nat).length arch64.bits false])
          (some (.register 16)) ⟨200, 3⟩],
        (Allocator.allocate [] [97, 98, 99]).2) :=
  c6_window_match arch64 [] 2000 97 98 99 8 8 8 false false false ⟨0, 0⟩ ⟨0, 0⟩ ⟨0, 0⟩
    (.assign (.register 40) (.const 1 64 false) ⟨201, 0⟩) (.other 11) [97, 98, 99]
    (some 5) (.expr (.const 600 64 false)) (.other 9) [] (some (.register 16)) ⟨200, 3⟩
    (by decide) (by decide) (by decide) (by decide) (by decide) (by decide)
    (by decide) (by decide)

end StringObf
